import Mathlib

/-!
# Verification of the waterz specification

The repository ships one Python source file (`setup.py`); the agglomeration
engine it packages is described by the specification but its C++ sources are
not present.  The engine is therefore modelled from the spec (definitions
marked `Modelled from the spec:`), and the packaging script is embedded
directly from `setup.py`.
-/

/-! ## Part 1: the agglomeration engine, modelled from the spec -/

/-- Modelled from the spec: a RAG edge — an unordered pair of region ids
(stored canonically with `u < v`) carrying a real-valued aggregated affinity
score (§3 "RAG Edge").  The engine's C++ sources are missing from the
repository; scores are modelled as rationals. -/
structure Edge where
  u : ℕ
  v : ℕ
  score : ℚ
deriving DecidableEq, Repr

/-- Modelled from the spec: a Merge Event — "(region A id, region B id,
resulting region id, score, resulting size)" (§3 "Merge Event"). -/
structure MergeEvent where
  a : ℕ
  b : ℕ
  result : ℕ
  score : ℚ
  size : ℕ
deriving DecidableEq, Repr

/-- Modelled from the spec: the Agglomerator state — the current voxel
labelling (Union-Find resolved to representatives) and the current RAG
(§4.4 "State"). -/
structure EngState where
  lab : List ℕ
  rag : List Edge
deriving DecidableEq, Repr

/-- Modelled from the spec: initial labelling — every voxel is its own
fragment (pre-supplied singleton fragmentation, §6 (b)). -/
def initLab (n : ℕ) : List ℕ := List.range n

/-- Modelled from the spec: Union-Find union resolved to labels — region `b`
is absorbed into region `a`; every voxel labelled `b` is relabelled `a`
(§4.1, §3 "Segmentation"). -/
def mergeRegions (lab : List ℕ) (a b : ℕ) : List ℕ :=
  lab.map (fun x => if x = b then a else x)

/-- Modelled from the spec: canonical storage of an unordered region pair
with the smaller id first (§4.4 "Tie-breaking": ascending pair of ids). -/
def canonical (a b : ℕ) (s : ℚ) : Edge :=
  if a ≤ b then ⟨a, b, s⟩ else ⟨b, a, s⟩

/-- Modelled from the spec: after region `b` merges into region `a`, every
RAG edge endpoint `b` is rewritten to `a` (§4.4 "recompute/merge their RAG
edges into the surviving region"). -/
def relabelEdge (a b : ℕ) (e : Edge) : Edge :=
  canonical (if e.u = b then a else e.u) (if e.v = b then a else e.v) e.score

/-- Modelled from the spec: add one edge to a RAG that has at most one
edge per region pair — a parallel edge to an existing pair is combined by
the maximum-affinity scoring policy (§4.3 "combine"). -/
def insertEdge (e : Edge) : List Edge → List Edge
  | [] => [e]
  | x :: rest =>
    if x.u = e.u ∧ x.v = e.v then ⟨x.u, x.v, max x.score e.score⟩ :: rest
    else x :: insertEdge e rest

/-- Modelled from the spec: coalesce parallel edges between the same region
pair into one edge whose score is the policy-defined combination — here the
maximum-affinity scoring policy (§4.3, §3 "RAG Edge" invariant: at most one
edge per unordered region pair). -/
def coalesce (l : List Edge) : List Edge :=
  l.foldl (fun acc e => insertEdge e acc) []

/-- Modelled from the spec: incremental RAG update on a merge of `b` into
`a` — relabel endpoints, drop the merged (now self-paired) edge, coalesce
parallel edges (§4.4 "Transition", §4.3 "incremental recomputation"). -/
def updateRAG (a b : ℕ) (rag : List Edge) : List Edge :=
  coalesce ((rag.map (relabelEdge a b)).filter (fun e => e.u != e.v))

/-- Modelled from the spec: the fixed merge-order key — `e₁` is popped
before `e₂` iff it has the strictly higher score, ties broken by the fixed
secondary key "ascending pair of region ids" (§4.4 "Tie-breaking"). -/
def better (e₁ e₂ : Edge) : Bool :=
  e₂.score < e₁.score ||
    (e₁.score == e₂.score && (e₁.u < e₂.u || (e₁.u == e₂.u && e₁.v < e₂.v)))

/-- Modelled from the spec: pop the extremal edge — highest score first for
affinity-style scoring, ties by the fixed secondary key (§4.4). -/
def pickBest : List Edge → Option Edge
  | [] => none
  | e :: rest =>
    match pickBest rest with
    | none => some e
    | some b => some (if better b e then b else e)

/-- Modelled from the spec: the Merge Event recorded for popping edge `e`
in state `st`: region ids, surviving representative, score, resulting
voxel count (§3 "Merge Event"). -/
def mkEvent (e : Edge) (st : EngState) : MergeEvent :=
  { a := e.u, b := e.v, result := e.u, score := e.score,
    size := ((mergeRegions st.lab e.u e.v).filter (fun x => x == e.u)).length }

/-- Modelled from the spec: one merge transition — union the two regions and
update the RAG incrementally (§4.4 "Transition"). -/
def applyEdge (e : Edge) (st : EngState) : EngState :=
  { lab := mergeRegions st.lab e.u e.v, rag := updateRAG e.u e.v st.rag }

/-- Modelled from the spec: one step of the greedy merge loop: pop the
extremal edge if any, merge, and emit the Merge Event (§4.4). -/
def step (st : EngState) : Option (MergeEvent × EngState) :=
  match pickBest st.rag with
  | none => none
  | some e => some (mkEvent e st, applyEdge e st)

/-- Modelled from the spec: the fuelled greedy merge loop, emitting the
append-only Merge Event log (§4.4; every merge removes at least one RAG
edge, so fuel equal to the initial edge count reaches the terminal state). -/
def runAux : ℕ → EngState → List MergeEvent × EngState
  | 0, st => ([], st)
  | fuel + 1, st =>
    match step st with
    | none => ([], st)
    | some (ev, st') =>
      let r := runAux fuel st'
      (ev :: r.1, r.2)

/-- Modelled from the spec: initial engine state from a pre-supplied
singleton fragmentation and caller-supplied affinity edges — edges stored
canonically, self-pairs dropped, parallel edges coalesced (§4.3). -/
def initState (n : ℕ) (edges : List Edge) : EngState :=
  { lab := initLab n
    rag := coalesce ((edges.map (fun e => canonical e.u e.v e.score)).filter
      (fun e => e.u != e.v)) }

/-- Modelled from the spec: the full merge sequence of one agglomeration
run (§4.4 "Output": the Merge Event log). -/
def engineRun (n : ℕ) (edges : List Edge) : List MergeEvent :=
  (runAux (initState n edges).rag.length (initState n edges)).1

/-- Modelled from the spec: replay a Merge Event log on a labelling
(§3 "Segmentation": resolve each voxel through the Union-Find state). -/
def applyMerges (evs : List MergeEvent) (lab : List ℕ) : List ℕ :=
  evs.foldl (fun l ev => mergeRegions l ev.a ev.b) lab

/-- Modelled from the spec: the segmentation materialized at a threshold —
"the state of Union-Find immediately after processing the last merge whose
score is ≥ the threshold" (§3 "Threshold", merge-highest-first direction). -/
def segAt (n : ℕ) (edges : List Edge) (t : ℚ) : List ℕ :=
  applyMerges ((engineRun n edges).takeWhile (fun ev => decide (t ≤ ev.score))) (initLab n)

/-- Modelled from the spec: the engine entry point — one segmentation per
requested threshold, in the order the thresholds were supplied (§6). -/
def engine (n : ℕ) (edges : List Edge) (ts : List ℚ) : List (List ℕ) :=
  ts.map (segAt n edges)

/-- The 2×2×1 scenario of §8: voxels 0 = (0,0), 1 = (1,0), 2 = (0,1),
3 = (1,1); affinity 9/10 within each horizontal pair, 1/10 between the
pairs. -/
def scenarioEdges : List Edge :=
  [⟨0, 1, mkRat 9 10⟩, ⟨2, 3, mkRat 9 10⟩, ⟨0, 2, mkRat 1 10⟩, ⟨1, 3, mkRat 1 10⟩]

/-- Modelled from the spec: the strict merge-priority order as a relation —
`e₂` is merged strictly before `e₁` iff `e₂` has the higher score, or equal
score and the smaller region-id pair (§4.4 "Tie-breaking": "edges with
equal score are ordered by a fixed secondary key (e.g. ascending pair of
region ids)"). -/
def keyLt (e₁ e₂ : Edge) : Prop :=
  e₁.score < e₂.score ∨
    (e₁.score = e₂.score ∧ (e₂.u < e₁.u ∨ (e₂.u = e₁.u ∧ e₂.v < e₁.v)))

/-- Modelled from the spec: `e` is the edge the Agglomerator must pop from
`rag` — every other edge comes strictly later in the fixed merge-priority
order (§4.4 "pop the RAG edge with the extremal score", "Tie-breaking"). -/
def IsBest (rag : List Edge) (e : Edge) : Prop :=
  e ∈ rag ∧ ∀ x ∈ rag, x = e ∨ keyLt x e

/-- Modelled from the spec: a complete run of the Agglomerator as a
relation — the state machine of §4.4: repeatedly pop an edge that is
extremal under the fixed tie-break order and merge it, until no edges
remain; the run records the Merge Event log and the terminal state.  Two
"runs of the engine" are two derivations of this relation from the same
initial state. -/
inductive RunRel : EngState → List MergeEvent → EngState → Prop where
  | done (st : EngState) (h : st.rag = []) : RunRel st [] st
  | merge (st : EngState) (e : Edge) (evs : List MergeEvent) (stf : EngState)
      (hbest : IsBest st.rag e) (hrest : RunRel (applyEdge e st) evs stf) :
      RunRel st (mkEvent e st :: evs) stf

/-- A one-edge concrete engine state, used to exercise the determinism
theorem on a complete concrete run. -/
def stW : EngState := { lab := [0, 1], rag := [⟨0, 1, mkRat 9 10⟩] }

/-- The state after the single merge available from `stW`. -/
def stW2 : EngState := applyEdge ⟨0, 1, mkRat 9 10⟩ stW


/-! ## Part 1b: Affinity Graph construction (input validation), modelled from
the spec (§7 "InputShapeMismatch", "InvalidWeight") -/

/-- Modelled from the spec: a caller-supplied raw affinity value — either a
finite real number (modelled as a rational) or a non-finite floating-point
value (NaN or an infinity), which the engine must reject (§7
"InvalidWeight"). -/
inductive RawWeight where
  | finite (q : ℚ)
  | nonFinite
deriving DecidableEq, Repr

/-- Modelled from the spec: the caller's affinity input — declared grid
shape, one weight per voxel per neighbor-direction, and the declared weight
range (§2 "Affinity Graph", §7). -/
structure AffinityInput where
  shape : List ℕ
  weights : List RawWeight
  lo : ℚ
  hi : ℚ
deriving DecidableEq, Repr

/-- Modelled from the spec: the error kinds raised before any computation
starts (§7). -/
inductive BuildError where
  | inputShapeMismatch
  | invalidWeight
deriving DecidableEq, Repr

/-- Modelled from the spec: the number of affinity values an input of the
declared shape must carry — one per voxel per neighbor-direction (§2
"Affinity Graph": "one real-valued affinity per voxel per
neighbor-direction"). -/
def expectedCount (shape : List ℕ) : ℕ := shape.length * shape.prod

/-- Modelled from the spec: a weight is acceptable iff it is finite and
within the declared range (§7 "InvalidWeight"). -/
def weightOk (lo hi : ℚ) : RawWeight → Bool
  | .finite q => decide (lo ≤ q) && decide (q ≤ hi)
  | .nonFinite => false

/-- Modelled from the spec: Affinity Graph construction — validates shape
consistency and every weight before any computation, and passes the
accepted weights through unchanged (§7: "fails at construction of the
Affinity Graph, never silently clamped"). -/
def mkAffinityGraph (inp : AffinityInput) : Except BuildError (List ℚ) :=
  if inp.weights.length ≠ expectedCount inp.shape then .error .inputShapeMismatch
  else if inp.weights.all (weightOk inp.lo inp.hi) then
    .ok (inp.weights.filterMap (fun w => match w with | .finite q => some q | .nonFinite => none))
  else .error .invalidWeight

/-! ## Part 2: the packaging script, embedded from `src/setup.py` -/

/-- A POSIX path, as its list of components below the filesystem root
(mirroring `pathlib.PurePath.parts` without the root entry). -/
abbrev PyPath := List String

/-- The Python exceptions the module-level code of `setup.py` can raise:
`os.environ[...]` raises `KeyError`, `Path.relative_to` raises
`ValueError`. -/
inductive PyError where
  | keyError (k : String)
  | valueError
deriving DecidableEq, Repr

/-- Python's `PurePath.relative_to`: succeeds with the remaining components
iff `base`'s components are a prefix of `p`'s, otherwise raises
`ValueError` (modelled as `none`). -/
def relativeTo (p base : PyPath) : Option PyPath :=
  if base.isPrefixOf p then some (p.drop base.length) else none

/-- Split a character list at `/`, accumulating the current (reversed)
component. -/
def splitSlashAux : List Char → List Char → List String
  | [], acc => [String.mk acc.reverse]
  | c :: rest, acc =>
    if c = '/' then String.mk acc.reverse :: splitSlashAux rest []
    else splitSlashAux rest (c :: acc)

/-- Python's `Path(s)` for an absolute string path: split into
components. -/
def parsePath (s : String) : PyPath :=
  (splitSlashAux s.data []).filter (fun c => c ≠ "")

/-- Render a relative path from components, as `str()` of a Python
relative `PosixPath`. -/
def relPathStr (p : PyPath) : String := String.intercalate "/" p

/-- Render an absolute path from components, as `str()` of a Python
absolute `PosixPath`. -/
def absPathStr (p : PyPath) : String := "/" ++ String.intercalate "/" p

/-- The environment `setup.py` executes in: the process environment, the
user's home directory (`Path.home()`), and the directory holding
`setup.py` (`PACKAGE_DIR`). -/
structure SetupEnv where
  env : String → Option String
  home : PyPath
  packageDir : PyPath

/-- Lines 30-32 of `setup.py`: `source_dir` is `PACKAGE_DIR/waterz`;
`rel_home_dir` climbs from `source_dir` back to home with `..` components;
`conda_prefix` is `rel_home_dir` joined with `$CONDA_PREFIX` relative to
home.  Evaluation order follows Python: `source_dir.relative_to(home)`
first (line 31, `ValueError` on failure), then the `CONDA_PREFIX` lookup
(`KeyError` on absence), then its `relative_to(home)` (`ValueError`). -/
def condaPrefixCalc (s : SetupEnv) : Except PyError PyPath :=
  match relativeTo (s.packageDir ++ ["waterz"]) s.home with
  | none => .error .valueError
  | some relParts =>
    match s.env "CONDA_PREFIX" with
    | none => .error (.keyError "CONDA_PREFIX")
    | some cp =>
      match relativeTo (parsePath cp) s.home with
      | none => .error .valueError
      | some cpRel => .ok (List.replicate (relParts.length - 1) ".." ++ cpRel)

/-- The keyword arguments of the single extension in `extensions`
(`setup.py` lines 41-49). -/
structure ExtensionMod where
  name : String
  sources : List String
  include_dirs : List String
  language : String
  extra_link_args : List String
  extra_compile_args : List String
deriving DecidableEq, Repr

/-- The arguments `setup.py` passes to `setup()` that this development
reasons about. -/
structure SetupArgs where
  name : String
  version : String
  ext_modules : List ExtensionMod
deriving DecidableEq, Repr

/-- The module-level execution of `setup.py`: compute `conda_prefix`
(raising before `setup()` on failure), build `include_dirs` and
`extensions`, and call `setup()` with them.  An `Except.error` result means
an exception propagated before `setup()` was ever called. -/
def runSetupScript (s : SetupEnv) : Except PyError SetupArgs :=
  match condaPrefixCalc s with
  | .error e => .error e
  | .ok cp =>
    .ok { name := "waterz"
          version := "0.9.5"
          ext_modules := [{
            name := "waterz.evaluate"
            sources := ["waterz/evaluate.cpp", "waterz/frontend_evaluate.cpp"]
            include_dirs := [absPathStr (s.packageDir ++ ["waterz"]),
              absPathStr (s.packageDir ++ ["waterz"]) ++ "/backend"]
            language := "c++"
            extra_link_args := ["-std=c++11"]
            extra_compile_args := ["-std=c++11", "-w",
              "-I" ++ relPathStr cp ++ "\\Lib\\site-packages\\numpy\\core\\include",
              "-I" ++ relPathStr cp ++ "\\Library\\include"] }] }

/-- The mutable attributes of the `build_ext` command object: the
`include_dirs` list the override appends to, and all its other attributes
abstracted as `rest`. -/
structure BuilderState (α : Type) where
  include_dirs : List String
  rest : α
deriving DecidableEq

/-- The interpreter globals the override touches: `builtins.__NUMPY_SETUP__`
and everything else abstracted as `rest`. -/
structure PyGlobals (β : Type) where
  numpySetup : Bool
  rest : β
deriving DecidableEq

/-- The override `build_ext.finalize_options` (`setup.py` lines 22-27):
run the base class `finalize_options` (third-party setuptools code, taken
as the parameter `baseF`), set `builtins.__NUMPY_SETUP__ = False`, import
numpy, and append `numpy.get_include()` (the parameter `numpyInclude`) to
`self.include_dirs`. -/
def finalize_options (baseF : BuilderState α → BuilderState α) (numpyInclude : String)
    (st : BuilderState α) (g : PyGlobals β) : BuilderState α × PyGlobals β :=
  let st1 := baseF st
  let g1 : PyGlobals β := { g with numpySetup := false }
  let st2 : BuilderState α := { st1 with include_dirs := st1.include_dirs ++ [numpyInclude] }
  (st2, g1)

/-- A concrete environment in which `setup.py` fails before `setup()`:
`CONDA_PREFIX` is unset and the package directory is not under home. -/
def sBad : SetupEnv :=
  { env := fun _ => none, home := ["home", "user"], packageDir := ["opt", "pkg"] }

/-- A concrete environment in which `setup.py` reaches `setup()`. -/
def sGood : SetupEnv :=
  { env := fun k => if k = "CONDA_PREFIX" then some "/home/user/conda" else none
    home := ["home", "user"]
    packageDir := ["home", "user", "waterz-repo"] }

/-- A concrete malformed affinity input: correct weight count for shape
`[1,1,1]`, but containing a non-finite value. -/
def inpBad : AffinityInput :=
  { shape := [1, 1, 1]
    weights := [RawWeight.nonFinite, RawWeight.finite 0, RawWeight.finite 1]
    lo := 0
    hi := 1 }

/-- The `SetupArgs` value `runSetupScript` produces in the environment
`sGood`. -/
def goodArgs : SetupArgs :=
  { name := "waterz"
    version := "0.9.5"
    ext_modules := [{
      name := "waterz.evaluate"
      sources := ["waterz/evaluate.cpp", "waterz/frontend_evaluate.cpp"]
      include_dirs := ["/home/user/waterz-repo/waterz", "/home/user/waterz-repo/waterz/backend"]
      language := "c++"
      extra_link_args := ["-std=c++11"]
      extra_compile_args := ["-std=c++11", "-w",
        "-I../conda\\Lib\\site-packages\\numpy\\core\\include",
        "-I../conda\\Library\\include"] }] }

/-! ## Helper lemmas: labellings and replayed merges -/

theorem score_canonical (a b : ℕ) (s : ℚ) : (canonical a b s).score = s := by
  unfold canonical
  split <;> rfl

theorem score_relabelEdge (a b : ℕ) (e : Edge) : (relabelEdge a b e).score = e.score :=
  score_canonical _ _ _

theorem length_mergeRegions (lab : List ℕ) (a b : ℕ) :
    (mergeRegions lab a b).length = lab.length := List.length_map _ _

theorem applyMerges_nil (lab : List ℕ) : applyMerges [] lab = lab := rfl

theorem applyMerges_cons (ev : MergeEvent) (evs : List MergeEvent) (lab : List ℕ) :
    applyMerges (ev :: evs) lab = applyMerges evs (mergeRegions lab ev.a ev.b) := rfl

theorem applyMerges_append (l₁ l₂ : List MergeEvent) (lab : List ℕ) :
    applyMerges (l₁ ++ l₂) lab = applyMerges l₂ (applyMerges l₁ lab) :=
  List.foldl_append _ _ _ _

theorem length_applyMerges (evs : List MergeEvent) (lab : List ℕ) :
    (applyMerges evs lab).length = lab.length := by
  induction evs generalizing lab with
  | nil => rfl
  | cons ev evs ih =>
    rw [applyMerges_cons, ih, length_mergeRegions]

theorem mergeRegions_label_eq (lab : List ℕ) (a b v w : ℕ)
    (hv : v < lab.length) (hw : w < lab.length) (h : lab[v]! = lab[w]!) :
    (mergeRegions lab a b)[v]! = (mergeRegions lab a b)[w]! := by
  rw [getElem!_pos lab v hv, getElem!_pos lab w hw] at h
  rw [getElem!_pos _ v (by rw [length_mergeRegions]; exact hv),
    getElem!_pos _ w (by rw [length_mergeRegions]; exact hw)]
  unfold mergeRegions
  rw [List.getElem_map, List.getElem_map, h]

theorem applyMerges_label_eq (evs : List MergeEvent) (lab : List ℕ) (v w : ℕ)
    (hv : v < lab.length) (hw : w < lab.length) (h : lab[v]! = lab[w]!) :
    (applyMerges evs lab)[v]! = (applyMerges evs lab)[w]! := by
  induction evs generalizing lab with
  | nil => exact h
  | cons ev evs ih =>
    rw [applyMerges_cons]
    exact ih _ (by rw [length_mergeRegions]; exact hv)
      (by rw [length_mergeRegions]; exact hw)
      (mergeRegions_label_eq lab ev.a ev.b v w hv hw h)

theorem takeWhile_eq_takeWhile_append {α : Type} (p q : α → Bool) (l : List α)
    (himp : ∀ x, q x = true → p x = true) :
    ∃ r, l.takeWhile p = l.takeWhile q ++ r := by
  induction l with
  | nil => exact ⟨[], rfl⟩
  | cons x xs ih =>
    by_cases hq : q x = true
    · obtain ⟨r, hr⟩ := ih
      exact ⟨r, by simp [List.takeWhile_cons, himp x hq, hq, hr]⟩
    · have hq' : q x = false := by simpa using hq
      exact ⟨(x :: xs).takeWhile p, by simp [List.takeWhile_cons, hq']⟩

theorem length_initLab (n : ℕ) : (initLab n).length = n := List.length_range n

theorem length_segAt (n : ℕ) (edges : List Edge) (t : ℚ) : (segAt n edges t).length = n := by
  unfold segAt
  rw [length_applyMerges, length_initLab]

theorem segAt_label_mono (n : ℕ) (edges : List Edge) (t₁ t₂ : ℚ) (hle : t₁ ≤ t₂) (v w : ℕ)
    (hv : v < n) (hw : w < n)
    (h : (segAt n edges t₂)[v]! = (segAt n edges t₂)[w]!) :
    (segAt n edges t₁)[v]! = (segAt n edges t₁)[w]! := by
  obtain ⟨r, hr⟩ := takeWhile_eq_takeWhile_append
    (fun ev => decide (t₁ ≤ ev.score)) (fun ev => decide (t₂ ≤ ev.score))
    (engineRun n edges)
    (by intro x hx; simp only [decide_eq_true_eq] at hx ⊢; linarith)
  unfold segAt at h ⊢
  rw [hr, applyMerges_append]
  exact applyMerges_label_eq r _ v w
    (by rw [length_applyMerges, length_initLab]; exact hv)
    (by rw [length_applyMerges, length_initLab]; exact hw) h

theorem engine_getElem (n : ℕ) (edges : List Edge) (ts : List ℚ) (i : ℕ)
    (hi : i < ts.length) : (engine n edges ts)[i]! = segAt n edges (ts[i]!) := by
  unfold engine
  rw [getElem!_pos _ i (by simpa using hi), List.getElem_map, getElem!_pos ts i hi]

/-! ## Helper lemmas: the greedy pop and score bounds -/

theorem pickBest_none (l : List Edge) (h : pickBest l = none) : l = [] := by
  cases l with
  | nil => rfl
  | cons a rest =>
    unfold pickBest at h
    cases hrest : pickBest rest <;> rw [hrest] at h <;> simp at h

theorem pickBest_mem (l : List Edge) (e : Edge) (h : pickBest l = some e) : e ∈ l := by
  induction l generalizing e with
  | nil => simp [pickBest] at h
  | cons a rest ih =>
    unfold pickBest at h
    cases hrest : pickBest rest with
    | none =>
      rw [hrest] at h
      simp at h
      simp [h]
    | some b =>
      rw [hrest] at h
      simp at h
      by_cases hba : better b a = true
      · rw [if_pos hba] at h
        exact List.mem_cons_of_mem a (h ▸ ih b hrest)
      · rw [if_neg hba] at h
        simp [h]

theorem better_true_score_le (b a : Edge) (h : better b a = true) : a.score ≤ b.score := by
  unfold better at h
  simp only [Bool.or_eq_true, Bool.and_eq_true, decide_eq_true_eq, beq_iff_eq] at h
  rcases h with h | ⟨h, -⟩
  · exact le_of_lt h
  · exact le_of_eq h.symm

theorem better_false_score_le (b a : Edge) (h : better b a = false) : b.score ≤ a.score := by
  unfold better at h
  simp only [Bool.or_eq_false_iff, Bool.and_eq_false_iff, decide_eq_false_iff_not] at h
  exact le_of_not_lt h.1

theorem pickBest_score_le (l : List Edge) (e : Edge) (h : pickBest l = some e) :
    ∀ x ∈ l, x.score ≤ e.score := by
  induction l generalizing e with
  | nil => simp [pickBest] at h
  | cons a rest ih =>
    intro x hx
    unfold pickBest at h
    cases hrest : pickBest rest with
    | none =>
      rw [hrest] at h
      simp at h
      obtain rfl := pickBest_none rest hrest
      simp at hx
      rw [hx, ← h]
    | some b =>
      rw [hrest] at h
      simp at h
      rcases List.mem_cons.mp hx with rfl | hx'
      · by_cases hba : better b x = true
        · rw [if_pos hba] at h
          exact h ▸ better_true_score_le b x hba
        · rw [if_neg hba] at h
          rw [← h]
      · have hxb := ih b hrest x hx'
        by_cases hba : better b a = true
        · rw [if_pos hba] at h
          exact h ▸ hxb
        · rw [if_neg hba] at h
          have hb := better_false_score_le b a (by simpa using hba)
          exact h ▸ le_trans hxb hb

theorem insertEdge_score_le (c : ℚ) (e : Edge) (acc : List Edge)
    (hacc : ∀ x ∈ acc, x.score ≤ c) (he : e.score ≤ c) :
    ∀ y ∈ insertEdge e acc, y.score ≤ c := by
  induction acc with
  | nil =>
    intro y hy
    simp [insertEdge] at hy
    rw [hy]
    exact he
  | cons a rest ih =>
    intro y hy
    unfold insertEdge at hy
    split at hy
    · rcases List.mem_cons.mp hy with rfl | hy'
      · exact max_le (hacc a (by simp)) he
      · exact hacc y (List.mem_cons_of_mem a hy')
    · rcases List.mem_cons.mp hy with rfl | hy'
      · exact hacc y (by simp)
      · exact ih (fun x hx => hacc x (List.mem_cons_of_mem a hx)) y hy'

theorem foldl_insertEdge_score_le (c : ℚ) (l acc : List Edge)
    (hacc : ∀ x ∈ acc, x.score ≤ c) (hl : ∀ x ∈ l, x.score ≤ c) :
    ∀ y ∈ l.foldl (fun acc e => insertEdge e acc) acc, y.score ≤ c := by
  induction l generalizing acc with
  | nil => exact hacc
  | cons e rest ih =>
    simp only [List.foldl_cons]
    exact ih _ (insertEdge_score_le c e acc hacc (hl e (by simp)))
      (fun x hx => hl x (by simp [hx]))

theorem coalesce_score_le (c : ℚ) (l : List Edge) (hl : ∀ x ∈ l, x.score ≤ c) :
    ∀ y ∈ coalesce l, y.score ≤ c :=
  foldl_insertEdge_score_le c l [] (by simp) hl

theorem updateRAG_score_le (c : ℚ) (a b : ℕ) (rag : List Edge)
    (hrag : ∀ x ∈ rag, x.score ≤ c) : ∀ y ∈ updateRAG a b rag, y.score ≤ c := by
  apply coalesce_score_le
  intro x hx
  obtain ⟨z, hz, rfl⟩ := List.mem_map.mp (List.mem_of_mem_filter hx)
  rw [score_relabelEdge]
  exact hrag z hz

theorem step_some (st : EngState) (p : MergeEvent × EngState) (h : step st = some p) :
    ∃ e, pickBest st.rag = some e ∧ p = (mkEvent e st, applyEdge e st) := by
  unfold step at h
  cases hpb : pickBest st.rag with
  | none => rw [hpb] at h; simp at h
  | some e =>
    rw [hpb] at h
    simp at h
    exact ⟨e, rfl, h.symm⟩

theorem runAux_score_le (fuel : ℕ) (st : EngState) (c : ℚ)
    (hb : ∀ e ∈ st.rag, e.score ≤ c) :
    ∀ ev ∈ (runAux fuel st).1, ev.score ≤ c := by
  induction fuel generalizing st with
  | zero => simp [runAux]
  | succ fuel ih =>
    intro ev hev
    unfold runAux at hev
    cases hstep : step st with
    | none => rw [hstep] at hev; simp at hev
    | some p =>
      rw [hstep] at hev
      obtain ⟨e, he, rfl⟩ := step_some st p hstep
      simp at hev
      rcases hev with rfl | hev'
      · exact hb e (pickBest_mem _ _ he)
      · exact ih (applyEdge e st) (updateRAG_score_le c e.u e.v st.rag hb) ev hev'

theorem runAux_scores_chain (fuel : ℕ) (st : EngState) :
    List.Chain' (fun a b => b ≤ a) ((runAux fuel st).1.map MergeEvent.score) := by
  induction fuel generalizing st with
  | zero => simp [runAux]
  | succ fuel ih =>
    unfold runAux
    cases hstep : step st with
    | none => simp
    | some p =>
      obtain ⟨e, he, rfl⟩ := step_some st p hstep
      simp only [List.map_cons]
      rw [List.chain'_cons']
      refine ⟨?_, ih _⟩
      intro y hy
      have hmem : ∃ ev ∈ (runAux fuel (applyEdge e st)).1, MergeEvent.score ev = y := by
        cases hl : ((runAux fuel (applyEdge e st)).1).map MergeEvent.score with
        | nil => rw [hl] at hy; simp at hy
        | cons z zs =>
          rw [hl] at hy
          simp at hy
          have : z ∈ ((runAux fuel (applyEdge e st)).1).map MergeEvent.score := by
            rw [hl]; simp
          obtain ⟨ev, hev, hevz⟩ := List.mem_map.mp this
          exact ⟨ev, hev, by rw [hevz, hy]⟩
      obtain ⟨ev, hev, rfl⟩ := hmem
      exact runAux_score_le fuel (applyEdge e st) e.score
        (updateRAG_score_le e.score e.u e.v st.rag (pickBest_score_le st.rag e he)) ev hev

/-! ## Helper lemmas: uniqueness of the greedy pop under the tie-break order -/

theorem keyLt_asymm (e₁ e₂ : Edge) (h₁ : keyLt e₁ e₂) (h₂ : keyLt e₂ e₁) : False := by
  rcases h₁ with h₁ | ⟨hs₁, ht₁⟩ <;> rcases h₂ with h₂ | ⟨hs₂, ht₂⟩
  · exact absurd h₂ (not_lt.mpr (le_of_lt h₁))
  · exact absurd h₁ (not_lt.mpr (le_of_eq hs₂))
  · exact absurd h₂ (not_lt.mpr (le_of_eq hs₁))
  · rcases ht₁ with h | ⟨h, h'⟩ <;> rcases ht₂ with g | ⟨g, g'⟩ <;> omega

theorem isBest_unique (rag : List Edge) (e₁ e₂ : Edge)
    (h₁ : IsBest rag e₁) (h₂ : IsBest rag e₂) : e₁ = e₂ := by
  rcases h₂.2 e₁ h₁.1 with h | h
  · exact h
  · rcases h₁.2 e₂ h₂.1 with h' | h'
    · exact h'.symm
    · exact (keyLt_asymm e₁ e₂ h h').elim

/-! ## Helper lemmas: affinity construction -/

theorem weights_all_finite (ws : List RawWeight) (lo hi : ℚ)
    (h : ws.all (weightOk lo hi) = true) :
    ws = (ws.filterMap
      (fun w => match w with | .finite q => some q | .nonFinite => none)).map
        RawWeight.finite := by
  induction ws with
  | nil => rfl
  | cons w ws ih =>
    simp only [List.all_cons, Bool.and_eq_true] at h
    cases w with
    | finite q => simp only [List.filterMap_cons, List.map_cons]; rw [← ih h.2]
    | nonFinite => simp [weightOk] at h

/-! ## The claims -/

/-- C1 (amended): for thresholds `t₁ < t₂` requested in one invocation, the
segmentation returned for `t₁` is a coarsening of the segmentation returned
for `t₂` — every region of the `t₂` segmentation is contained in exactly
one region of the `t₁` segmentation, never split across two.  (The claim as
frozen states the coarsening in the opposite direction, which the engine as
modelled from the spec refutes: under merge-highest-first, a higher
threshold stops the merge sequence earlier and therefore yields the finer
segmentation.) -/
theorem thresholds_coarsening (n : ℕ) (edges : List Edge) (ts : List ℚ) (i j v w : ℕ)
    (hi : i < ts.length) (hj : j < ts.length) (hv : v < n) (hw : w < n)
    (hij : ts[i]! < ts[j]!)
    (hsame : ((engine n edges ts)[j]!)[v]! = ((engine n edges ts)[j]!)[w]!) :
    ((engine n edges ts)[i]!)[v]! = ((engine n edges ts)[i]!)[w]! := by
  rw [engine_getElem n edges ts j hj] at hsame
  rw [engine_getElem n edges ts i hi]
  exact segAt_label_mono n edges _ _ (le_of_lt hij) v w hv hw hsame

/-- C1 (counterexample to the claim as frozen): on the 2×2×1 scenario with
ascending thresholds `[1/20, 1/2]`, voxels 0 and 2 lie in one region of the
`t₁ = 1/20` segmentation but in two different regions of the `t₂ = 1/2`
segmentation — so the `t₂` segmentation is not a coarsening of the `t₁`
segmentation. -/
theorem thresholds_coarsening_counterexample :
    mkRat 1 20 < mkRat 1 2 ∧
    ((engine 4 scenarioEdges [mkRat 1 20, mkRat 1 2])[0]!)[0]!
      = ((engine 4 scenarioEdges [mkRat 1 20, mkRat 1 2])[0]!)[2]! ∧
    ((engine 4 scenarioEdges [mkRat 1 20, mkRat 1 2])[1]!)[0]!
      ≠ ((engine 4 scenarioEdges [mkRat 1 20, mkRat 1 2])[1]!)[2]! := by decide

/-- C1 witness: the amended theorem applied to the 2×2×1 scenario — voxels
0 and 1 share a region at threshold `1/2`, hence also at `1/20`. -/
theorem thresholds_coarsening_witness :
    ((engine 4 scenarioEdges [mkRat 1 20, mkRat 1 2])[0]!)[0]!
      = ((engine 4 scenarioEdges [mkRat 1 20, mkRat 1 2])[0]!)[1]! :=
  thresholds_coarsening 4 scenarioEdges [mkRat 1 20, mkRat 1 2] 0 1 0 1
    (by decide) (by decide) (by decide) (by decide) (by decide) (by decide)

/-- C3: in every returned segmentation, the labelling is total over the
voxel grid (one label per voxel, list length `n`), and every voxel belongs
to exactly one region — there is a unique region label `r` occurring in the
segmentation such that the voxel's label is `r`. -/
theorem segmentation_partition (n : ℕ) (edges : List Edge) (ts : List ℚ) (k v : ℕ)
    (hk : k < ts.length) (hv : v < n) :
    ((engine n edges ts)[k]!).length = n ∧
    ∃! r : ℕ, r ∈ (engine n edges ts)[k]! ∧ ((engine n edges ts)[k]!)[v]! = r := by
  rw [engine_getElem n edges ts k hk]
  refine ⟨length_segAt n edges _, (segAt n edges (ts[k]!))[v]!, ⟨?_, rfl⟩, ?_⟩
  · rw [getElem!_pos _ v (by rw [length_segAt]; exact hv)]
    exact List.getElem_mem _
  · rintro r ⟨-, hr⟩
    exact hr.symm

/-- C3 witness: the partition property at the 2×2×1 scenario, first
threshold, voxel 0. -/
theorem segmentation_partition_witness :
    ((engine 4 scenarioEdges [mkRat 1 20, mkRat 1 2])[0]!).length = 4 ∧
    ∃! r : ℕ, r ∈ (engine 4 scenarioEdges [mkRat 1 20, mkRat 1 2])[0]! ∧
      ((engine 4 scenarioEdges [mkRat 1 20, mkRat 1 2])[0]!)[0]! = r :=
  segmentation_partition 4 scenarioEdges [mkRat 1 20, mkRat 1 2] 0 0
    (by decide) (by decide)

/-- C5: merges are monotone — once two voxels carry the same region label
after `k` merge steps of a run, they still carry the same region label
after any `k + m` merge steps: merged regions are never split again. -/
theorem merges_never_split (n : ℕ) (edges : List Edge) (k m v w : ℕ)
    (hv : v < n) (hw : w < n)
    (hsame : (applyMerges ((engineRun n edges).take k) (initLab n))[v]!
           = (applyMerges ((engineRun n edges).take k) (initLab n))[w]!) :
    (applyMerges ((engineRun n edges).take (k + m)) (initLab n))[v]!
      = (applyMerges ((engineRun n edges).take (k + m)) (initLab n))[w]! := by
  rw [List.take_add, applyMerges_append]
  exact applyMerges_label_eq _ _ v w
    (by rw [length_applyMerges, length_initLab]; exact hv)
    (by rw [length_applyMerges, length_initLab]; exact hw) hsame

/-- C5 witness: on the 2×2×1 scenario, voxels 0 and 1 are merged after two
steps and remain merged after the third. -/
theorem merges_never_split_witness :
    (applyMerges ((engineRun 4 scenarioEdges).take (2 + 1)) (initLab 4))[0]!
      = (applyMerges ((engineRun 4 scenarioEdges).take (2 + 1)) (initLab 4))[1]! :=
  merges_never_split 4 scenarioEdges 2 1 0 1 (by decide) (by decide) (by decide)

/-- C7: on the 2×2×1 grid with affinities 9/10 inside each horizontal pair
and 1/10 between the pairs, the engine invoked with thresholds
`[1/20, 1/2]` returns at threshold `1/2` a segmentation with exactly two
regions of two voxels each, and at threshold `1/20` a segmentation with
exactly one region of four voxels. -/
theorem scenario_two_by_two :
    engine 4 scenarioEdges [mkRat 1 20, mkRat 1 2] = [[0, 0, 0, 0], [0, 0, 2, 2]] ∧
    ((engine 4 scenarioEdges [mkRat 1 20, mkRat 1 2])[1]!).dedup.length = 2 ∧
    (∀ r ∈ ((engine 4 scenarioEdges [mkRat 1 20, mkRat 1 2])[1]!).dedup,
      ((engine 4 scenarioEdges [mkRat 1 20, mkRat 1 2])[1]!).count r = 2) ∧
    ((engine 4 scenarioEdges [mkRat 1 20, mkRat 1 2])[0]!).dedup.length = 1 ∧
    (∀ r ∈ ((engine 4 scenarioEdges [mkRat 1 20, mkRat 1 2])[0]!).dedup,
      ((engine 4 scenarioEdges [mkRat 1 20, mkRat 1 2])[0]!).count r = 4) := by decide

/-- C2: the engine is deterministic — any two complete runs of the
Agglomerator from the same initial state (identical input) produce the
same Merge Event log, the same terminal state, and identical label
assignments in the segmentation materialized at every threshold; the fixed
tie-break key makes the popped edge unique at every step. -/
theorem engine_deterministic (st : EngState) (evs₁ evs₂ : List MergeEvent)
    (st₁ st₂ : EngState) (h₁ : RunRel st evs₁ st₁) (h₂ : RunRel st evs₂ st₂) :
    evs₁ = evs₂ ∧ st₁ = st₂ ∧
      ∀ t : ℚ, applyMerges (evs₁.takeWhile (fun ev => decide (t ≤ ev.score))) st.lab
             = applyMerges (evs₂.takeWhile (fun ev => decide (t ≤ ev.score))) st.lab := by
  induction h₁ generalizing evs₂ st₂ with
  | done st hnil =>
    cases h₂ with
    | done => exact ⟨rfl, rfl, fun _ => rfl⟩
    | merge _ e' evs' stf' hbest' hrest' =>
      rw [hnil] at hbest'
      exact absurd hbest'.1 (List.not_mem_nil e')
  | merge st e evs stf hbest hrest ih =>
    cases h₂ with
    | done _ hnil =>
      rw [hnil] at hbest
      exact absurd hbest.1 (List.not_mem_nil e)
    | merge _ e' evs' stf' hbest' hrest' =>
      obtain rfl := isBest_unique st.rag e e' hbest hbest'
      obtain ⟨hevs, hstf, -⟩ := ih _ _ hrest'
      subst hevs
      exact ⟨rfl, hstf, fun _ => rfl⟩

/-- C2 witness: two explicit complete runs from the one-edge state `stW`
produce identical logs, terminal states, and segmentations. -/
theorem engine_deterministic_witness :
    [mkEvent ⟨0, 1, mkRat 9 10⟩ stW] = [mkEvent ⟨0, 1, mkRat 9 10⟩ stW] ∧
    stW2 = stW2 ∧
      ∀ t : ℚ,
        applyMerges (([mkEvent ⟨0, 1, mkRat 9 10⟩ stW]).takeWhile
            (fun ev => decide (t ≤ ev.score))) stW.lab
          = applyMerges (([mkEvent ⟨0, 1, mkRat 9 10⟩ stW]).takeWhile
            (fun ev => decide (t ≤ ev.score))) stW.lab :=
  engine_deterministic stW _ _ stW2 stW2
    (RunRel.merge stW ⟨0, 1, mkRat 9 10⟩ [] stW2
      (by simp only [IsBest, keyLt]; decide) (RunRel.done stW2 (by decide)))
    (RunRel.merge stW ⟨0, 1, mkRat 9 10⟩ [] stW2
      (by simp only [IsBest, keyLt]; decide) (RunRel.done stW2 (by decide)))

/-- C4 (amended): under the default score-ordered greedy policy merging the
highest-scoring edge first, the scores in the Merge Event log, read in
merge sequence order, are monotonically non-increasing.  (The claim as
frozen asserts they are non-decreasing, which the engine as modelled from
the spec refutes: popping the extremal — highest — score first makes every
later recorded score at most the earlier one.) -/
theorem merge_scores_monotone (n : ℕ) (edges : List Edge) :
    List.Chain' (fun a b => b ≤ a) ((engineRun n edges).map MergeEvent.score) :=
  runAux_scores_chain _ _

/-- C4 (counterexample to the claim as frozen): on the 2×2×1 scenario the
Merge Event scores are `[9/10, 9/10, 1/10]`, which is not non-decreasing in
merge sequence order. -/
theorem merge_scores_counterexample :
    ¬ List.Chain' (fun a b => a ≤ b) ((engineRun 4 scenarioEdges).map MergeEvent.score) := by
  intro h
  rw [show (engineRun 4 scenarioEdges).map MergeEvent.score
      = [mkRat 9 10, mkRat 9 10, mkRat 1 10] from by decide] at h
  exact absurd (List.chain'_cons.mp (List.chain'_cons.mp h).2).1 (by decide)

/-- C6: Affinity Graph construction fails fast — for every input whose
weight count is inconsistent with the declared grid shape or which contains
a non-finite or out-of-declared-range weight, construction returns an error
(so no segmentation state is ever produced from it), and whenever
construction succeeds, the accepted weights are passed through exactly as
supplied, never clamped. -/
theorem affinity_construction (inp : AffinityInput) :
    ((inp.weights.length ≠ expectedCount inp.shape ∨
        ∃ w ∈ inp.weights, weightOk inp.lo inp.hi w = false) →
      ∃ err, mkAffinityGraph inp = Except.error err) ∧
    (∀ g, mkAffinityGraph inp = Except.ok g → inp.weights = g.map RawWeight.finite) := by
  constructor
  · intro h
    unfold mkAffinityGraph
    by_cases hlen : inp.weights.length ≠ expectedCount inp.shape
    · exact ⟨BuildError.inputShapeMismatch, by rw [if_pos hlen]⟩
    · rcases h with h | ⟨w, hw, hwf⟩
      · exact absurd h hlen
      · have hall : ¬ inp.weights.all (weightOk inp.lo inp.hi) = true := by
          intro hc
          rw [List.all_eq_true] at hc
          rw [hc w hw] at hwf
          exact Bool.noConfusion hwf
        exact ⟨BuildError.invalidWeight, by rw [if_neg hlen, if_neg hall]⟩
  · intro g hg
    unfold mkAffinityGraph at hg
    by_cases hlen : inp.weights.length ≠ expectedCount inp.shape
    · rw [if_pos hlen] at hg
      simp at hg
    · rw [if_neg hlen] at hg
      by_cases hall : inp.weights.all (weightOk inp.lo inp.hi) = true
      · rw [if_pos hall] at hg
        simp at hg
        rw [← hg]
        exact weights_all_finite inp.weights inp.lo inp.hi hall
      · rw [if_neg hall] at hg
        simp at hg

/-- C6 witness: a shape-consistent input containing a non-finite weight is
rejected at construction. -/
theorem affinity_construction_witness :
    ∃ err, mkAffinityGraph inpBad = Except.error err :=
  (affinity_construction inpBad).1
    (Or.inr ⟨RawWeight.nonFinite, by decide, by decide⟩)

theorem exists_ok_of_ne_error {ε α : Type} (x : Except ε α)
    (h : ∀ e, x ≠ Except.error e) : ∃ a, x = Except.ok a := by
  cases x with
  | error e => exact absurd rfl (h e)
  | ok a => exact ⟨a, rfl⟩

/-- C8 (amended): `setup.py` reaches `setup()` iff `CONDA_PREFIX` is set
and both the package source directory and the `CONDA_PREFIX` path lie under
the home directory; if the source directory is not under home the script
raises `ValueError` (even when `CONDA_PREFIX` is also absent, because line
31 runs first); if the source directory is under home and `CONDA_PREFIX` is
absent it raises `KeyError`; if the source directory is under home and
`CONDA_PREFIX` is set but not under home it raises `ValueError` — in every
error case before `setup()` is ever called.  (The claim as frozen asserts a
`KeyError` whenever `CONDA_PREFIX` is absent, which the code refutes when
the source directory is also outside home.) -/
theorem setup_script_preconditions (s : SetupEnv) :
    ((∃ a, runSetupScript s = Except.ok a) ↔
      (s.home.isPrefixOf (s.packageDir ++ ["waterz"]) = true ∧
        ∃ cp, s.env "CONDA_PREFIX" = some cp ∧ s.home.isPrefixOf (parsePath cp) = true)) ∧
    (s.home.isPrefixOf (s.packageDir ++ ["waterz"]) = false →
      runSetupScript s = Except.error PyError.valueError) ∧
    (s.home.isPrefixOf (s.packageDir ++ ["waterz"]) = true →
      s.env "CONDA_PREFIX" = none →
      runSetupScript s = Except.error (PyError.keyError "CONDA_PREFIX")) ∧
    (∀ cp, s.home.isPrefixOf (s.packageDir ++ ["waterz"]) = true →
      s.env "CONDA_PREFIX" = some cp → s.home.isPrefixOf (parsePath cp) = false →
      runSetupScript s = Except.error PyError.valueError) := by
  refine ⟨⟨?_, ?_⟩, ?_, ?_, ?_⟩
  · rintro ⟨a, ha⟩
    by_cases h₁ : s.home.isPrefixOf (s.packageDir ++ ["waterz"]) = true
    · cases henv : s.env "CONDA_PREFIX" with
      | none => simp [runSetupScript, condaPrefixCalc, relativeTo, h₁, henv] at ha
      | some cp =>
        by_cases h₂ : s.home.isPrefixOf (parsePath cp) = true
        · exact ⟨h₁, cp, rfl, h₂⟩
        · simp [runSetupScript, condaPrefixCalc, relativeTo, h₁, henv,
            Bool.eq_false_iff.mpr h₂] at ha
    · simp [runSetupScript, condaPrefixCalc, relativeTo,
        Bool.eq_false_iff.mpr h₁] at ha
  · rintro ⟨h₁, cp, henv, h₂⟩
    apply exists_ok_of_ne_error
    intro e
    simp [runSetupScript, condaPrefixCalc, relativeTo, h₁, henv, h₂]
  · intro h₁
    simp [runSetupScript, condaPrefixCalc, relativeTo, h₁]
  · intro h₁ henv
    simp [runSetupScript, condaPrefixCalc, relativeTo, h₁, henv]
  · intro cp h₁ henv h₂
    simp [runSetupScript, condaPrefixCalc, relativeTo, h₁, henv, h₂]

/-- C8 (counterexample to the claim as frozen): in the environment `sBad`,
`CONDA_PREFIX` is absent, yet the script raises `ValueError` (from line
31's `relative_to`), not the `KeyError` the claim asserts for every absent
`CONDA_PREFIX`. -/
theorem setup_script_counterexample :
    sBad.env "CONDA_PREFIX" = none ∧
    runSetupScript sBad ≠ Except.error (PyError.keyError "CONDA_PREFIX") ∧
    runSetupScript sBad = Except.error PyError.valueError :=
  ⟨rfl, by
    intro h
    rw [show runSetupScript sBad = Except.error PyError.valueError from rfl] at h
    simp at h, rfl⟩

/-- C8 witness: in the environment `sGood` all three preconditions hold and
the script reaches `setup()`. -/
theorem setup_script_preconditions_witness :
    ∃ a, runSetupScript sGood = Except.ok a :=
  (setup_script_preconditions sGood).1.mpr
    ⟨by decide, "/home/user/conda", by decide, by decide⟩

/-- C9: whenever the script reaches `setup()`, it passes exactly one
extension module, named `waterz.evaluate`, built from
`waterz/evaluate.cpp` and `waterz/frontend_evaluate.cpp` in C++, with
`-std=c++11` among both the extra compile arguments and the extra link
arguments, and with the waterz source directory and its `backend`
subdirectory among the include directories. -/
theorem extension_module_config (s : SetupEnv) (a : SetupArgs)
    (h : runSetupScript s = Except.ok a) :
    a.ext_modules.length = 1 ∧
    ∀ e ∈ a.ext_modules,
      e.name = "waterz.evaluate" ∧
      e.sources = ["waterz/evaluate.cpp", "waterz/frontend_evaluate.cpp"] ∧
      e.language = "c++" ∧
      "-std=c++11" ∈ e.extra_compile_args ∧
      "-std=c++11" ∈ e.extra_link_args ∧
      absPathStr (s.packageDir ++ ["waterz"]) ∈ e.include_dirs ∧
      absPathStr (s.packageDir ++ ["waterz"]) ++ "/backend" ∈ e.include_dirs := by
  unfold runSetupScript at h
  cases hcp : condaPrefixCalc s with
  | error e => rw [hcp] at h; simp at h
  | ok cp =>
    rw [hcp] at h
    simp only [Except.ok.injEq] at h
    subst h
    refine ⟨rfl, ?_⟩
    intro e he
    simp only [List.mem_singleton] at he
    subst he
    exact ⟨rfl, rfl, rfl, by simp, by simp, by simp, by simp⟩

/-- C9 witness: the extension configuration in the concrete environment
`sGood`, whose `setup()` arguments are `goodArgs`. -/
theorem extension_module_config_witness :
    goodArgs.ext_modules.length = 1 ∧
    ∀ e ∈ goodArgs.ext_modules,
      e.name = "waterz.evaluate" ∧
      e.sources = ["waterz/evaluate.cpp", "waterz/frontend_evaluate.cpp"] ∧
      e.language = "c++" ∧
      "-std=c++11" ∈ e.extra_compile_args ∧
      "-std=c++11" ∈ e.extra_link_args ∧
      absPathStr (sGood.packageDir ++ ["waterz"]) ∈ e.include_dirs ∧
      absPathStr (sGood.packageDir ++ ["waterz"]) ++ "/backend" ∈ e.include_dirs :=
  extension_module_config sGood goodArgs rfl

/-- C10: the override `build_ext.finalize_options` leaves the builder's
`include_dirs` equal to its post-base-class value extended with exactly one
new entry — numpy's include directory —, sets `builtins.__NUMPY_SETUP__` to
`False`, and modifies no other builder attribute and no other global beyond
what the base class `finalize_options` itself does. -/
theorem finalize_options_frame (α β : Type) (baseF : BuilderState α → BuilderState α)
    (numpyInclude : String) (st : BuilderState α) (g : PyGlobals β) :
    (finalize_options baseF numpyInclude st g).1.include_dirs
        = (baseF st).include_dirs ++ [numpyInclude] ∧
    (finalize_options baseF numpyInclude st g).1.rest = (baseF st).rest ∧
    (finalize_options baseF numpyInclude st g).2.numpySetup = false ∧
    (finalize_options baseF numpyInclude st g).2.rest = g.rest :=
  ⟨rfl, rfl, rfl, rfl⟩
